import Mathlib

/-!
Verification of the murmel SPV node's message-processing core against its
specification.  The dispatcher / node / peer-keeper control flow is embedded
from `src/dispatcher.rs`, `src/node.rs` and `src/constructor.rs`.  The
transactional header store (`chaindb`) and address store (`configdb`) are not
part of the sources, so they are modelled from the specification's contract
(section 4.1 resp. 4.2 of the spec); each such definition is marked
`Modelled from the spec:` in its doc comment.
-/

namespace Murmel

/-- `ProcessResult` from dispatcher.rs / node.rs. -/
inductive ProcessResult
  | ack
  | height (h : Nat)
  | ignored
  | ban (n : Nat)
deriving DecidableEq

/-- `SPVError` kinds exercised by the embedded code (error.rs is external;
these are the variants matched on in dispatcher.rs / node.rs). -/
inductive SPVError
  | spvBadProofOfWork
  | orphanHeader
  | noTip
  | storeErr
deriving DecidableEq

/-- A block header as the spec's data model describes it (section 3):
identity is `hash`, linkage is `prev`.  `powOk` abstracts the proof-of-work
validity check `pow(hash) ≤ expand(bits)` and `work` the per-header work
contribution `2^256/(expand(bits)+1)`; hashes are modelled as naturals. -/
structure MHeader where
  hash : Nat
  prev : Nat
  powOk : Bool
  work : Nat
deriving DecidableEq

/-- A stored header: the header plus its height and cumulative work
(spec section 3: `work = parent.work + 2^256/(expand(bits)+1)`). -/
structure StoredHeader where
  header : MHeader
  height : Nat
  cumWork : Nat
deriving DecidableEq

/-- Modelled from the spec: the HeaderStore state (spec section 4.1), a forest
of stored headers with a designated tip hash. -/
structure HeaderStore where
  stored : List StoredHeader
  tipHash : Nat
deriving DecidableEq

/-- Inventory types from the bitcoin wire library (`InvType`). -/
inductive InvType
  | error
  | transaction
  | block
  | witnessBlock
deriving DecidableEq

/-- An inventory entry (`Inventory`): type plus a block/tx hash. -/
structure Inventory where
  invType : InvType
  hash : Nat
deriving DecidableEq

/-- Outbound wire messages the embedded handlers produce. -/
inductive Msg
  | getHeaders (locator : List Nat) (stop : Nat)
  | getData (inv : List (InvType × Nat))
  | pong (nonce : Nat)
deriving DecidableEq

/-- Observable events of a dispatch, in operational order: a message sent to
the peer, a header-store `batch()` commit, or a `BlockDisconnected`
notification to the upper-layer connector. -/
inductive Event
  | send (m : Msg)
  | batch
  | blockDisconnected (h : MHeader)
deriving DecidableEq

/-- Lookup of a stored header by hash in a list of stored headers. -/
def findStored (l : List StoredHeader) (x : Nat) : Option StoredHeader :=
  l.find? (fun st => st.header.hash == x)

/-- Modelled from the spec: `get_header(hash)` of the HeaderStore. -/
def HeaderStore.getHeader (s : HeaderStore) (x : Nat) : Option StoredHeader :=
  findStored s.stored x

/-- Modelled from the spec: `tip()` of the HeaderStore — the stored header the
tip hash designates, if present. -/
def HeaderStore.tip (s : HeaderStore) : Option StoredHeader :=
  s.getHeader s.tipHash

/-- Walk the `prev` links downward from a hash, collecting the hashes that
have entries, newest first; `fuel` bounds the walk. -/
def ancestry (s : HeaderStore) : Nat → Nat → List Nat
  | 0, _ => []
  | fuel + 1, x =>
    match s.getHeader x with
    | none => []
    | some st => x :: ancestry s fuel st.header.prev

/-- The full ancestor-hash chain of a hash (fuel larger than any simple
chain in the store). -/
def HeaderStore.anc (s : HeaderStore) (x : Nat) : List Nat :=
  ancestry s (s.stored.length + 1) x

/-- Cumulative work at the current tip (zero for a broken tip pointer). -/
def tipWorkOf (s : HeaderStore) : Nat :=
  match s.tip with
  | some t => t.cumWork
  | none => 0

/-- Modelled from the spec: `add_header(h)` (spec section 4.1).  Validates
PoW and linkage to a known parent; `BadProofOfWork` if the PoW check fails,
`OrphanHeader` if the parent is unknown, `None` if the header is already
known or lands on a sibling branch that is not now best.  If `h` extends the
trunk the result carries `forwards = [h]`; if `h` creates a new best chain it
carries `unwinds` = old-trunk hashes from the old tip down to the fork
(exclusive) and `forwards` = new-trunk hashes from the fork (exclusive) up to
the new tip.  On equal cumulative work the incumbent tip wins. -/
def addHeader (s : HeaderStore) (h : MHeader) :
    Except SPVError (Option (StoredHeader × Option (List Nat) × Option (List Nat)) × HeaderStore) :=
  if h.powOk = false then .error .spvBadProofOfWork
  else if (s.getHeader h.hash).isSome then .ok (none, s)
  else
    match s.getHeader h.prev with
    | none => .error .orphanHeader
    | some parent =>
      if tipWorkOf s < parent.cumWork + h.work then
        if h.prev = s.tipHash then
          .ok (some (⟨h, parent.height + 1, parent.cumWork + h.work⟩, none, some [h.hash]),
            ⟨⟨h, parent.height + 1, parent.cumWork + h.work⟩ :: s.stored, h.hash⟩)
        else
          .ok (some (⟨h, parent.height + 1, parent.cumWork + h.work⟩,
            some ((s.anc s.tipHash).takeWhile (fun x =>
              !((HeaderStore.anc ⟨⟨h, parent.height + 1, parent.cumWork + h.work⟩ :: s.stored, h.hash⟩ h.hash).contains x))),
            some (((HeaderStore.anc ⟨⟨h, parent.height + 1, parent.cumWork + h.work⟩ :: s.stored, h.hash⟩ h.hash).takeWhile
              (fun x => !((s.anc s.tipHash).contains x))).reverse)),
            ⟨⟨h, parent.height + 1, parent.cumWork + h.work⟩ :: s.stored, h.hash⟩)
      else .ok (none, ⟨⟨h, parent.height + 1, parent.cumWork + h.work⟩ :: s.stored, s.tipHash⟩)

/-- Modelled from the spec: `unwind_tip(hash) → bool` — removes `hash` iff it
equals the current tip (retargeting the tip to its parent), else a no-op. -/
def unwindTip (s : HeaderStore) (x : Nat) : Bool × HeaderStore :=
  if x = s.tipHash then
    (true, ⟨s.stored.filter (fun st => st.header.hash ≠ x),
      match s.getHeader x with
      | some st => st.header.prev
      | none => s.tipHash⟩)
  else (false, s)

/-- Look up every hash of the list; `none` as soon as one is missing
(the dispatcher calls `get_header(h).unwrap()` on each). -/
def getAll (s : HeaderStore) : List Nat → Option (List StoredHeader)
  | [] => some []
  | u :: us =>
    match s.getHeader u with
    | none => none
    | some st =>
      match getAll s us with
      | none => none
      | some r => some (st :: r)

/-- Index walk for the locator: indices 0, 1, 2 then doubling steps. -/
def locatorGo (anc : List Nat) : Nat → Nat → Nat → List Nat
  | 0, _, _ => []
  | fuel + 1, i, step =>
    match anc.get? i with
    | none => []
    | some x => x :: locatorGo anc fuel (i + step) (if 2 ≤ i then step * 2 else step)

/-- Modelled from the spec: `header_locators()` — tip, tip−1, tip−2, then
doubling steps, ending at genesis; first element is the current tip hash. -/
def headerLocators (s : HeaderStore) : List Nat :=
  match (s.anc s.tipHash).getLast? with
  | some g =>
    if g ∈ locatorGo (s.anc s.tipHash) ((s.anc s.tipHash).length + 1) 0 1 then
      locatorGo (s.anc s.tipHash) ((s.anc s.tipHash).length + 1) 0 1
    else
      locatorGo (s.anc s.tipHash) ((s.anc s.tipHash).length + 1) 0 1 ++ [g]
  | none => []

/-- The mutable locals of `Dispatcher::headers` (dispatcher.rs lines 146-164):
the working chaindb state plus `some_new`, `moved_tip` and `height`. -/
structure InnerSt where
  work : HeaderStore
  someNew : Bool
  movedTip : Option Nat
  height : Nat
deriving DecidableEq

/-- How one pass of the inner `while let Some(header) = headers_queue.pop_front()`
loop ends: queue exhausted, `break` after a reorg, `Ban(100)` on
`SpvBadProofOfWork`, `Ignored` on any other error, or a `unwrap()` panic. -/
inductive InnerExit
  | done
  | broke
  | pow
  | err
  | panicked
deriving DecidableEq

/-- Result of one inner pass: updated locals, the unconsumed queue, the
disconnected headers collected for this pass, and how the pass ended. -/
structure InnerOut where
  st : InnerSt
  rest : List MHeader
  disc : List MHeader
  exit : InnerExit
deriving DecidableEq

/-- `moved_tip = Some(forwards.last().unwrap().clone())` (dispatcher.rs line
177): keeps the old value if `forwards` is `None`, panics (`none`) if the
`forwards` list is empty. -/
def forwardsTip (forwards : Option (List Nat)) (old : Option Nat) : Option (Option Nat) :=
  match forwards with
  | none => some old
  | some fs =>
    match fs.getLast? with
    | none => none
    | some t => some (some t)

/-- The inner pass of `Dispatcher::headers` (dispatcher.rs lines 169-202):
pop headers, `add_header` each; on a stored header update `some_new`,
`moved_tip` and `height`; on a reorg apply `unwind_tip` to each unwound hash,
collect the unwound headers via `get_header(h).unwrap()` and break; return
`Ban(100)` on bad PoW and `Ignored` on other errors. -/
def innerLoop (st : InnerSt) : List MHeader → InnerOut
  | [] => ⟨st, [], [], .done⟩
  | h :: rest =>
    match addHeader st.work h with
    | .error .spvBadProofOfWork => ⟨st, rest, [], .pow⟩
    | .error _ => ⟨st, rest, [], .err⟩
    | .ok (none, w) => innerLoop ⟨w, st.someNew, st.movedTip, st.height⟩ rest
    | .ok (some (stored, unwinds, forwards), w) =>
      match forwardsTip forwards st.movedTip with
      | none => ⟨⟨w, true, st.movedTip, stored.height⟩, rest, [], .panicked⟩
      | some mt =>
        match unwinds with
        | none => innerLoop ⟨w, true, mt, stored.height⟩ rest
        | some us =>
          match getAll (us.foldl (fun a u => (unwindTip a u).2) w) us with
          | none =>
            ⟨⟨us.foldl (fun a u => (unwindTip a u).2) w, true, mt, stored.height⟩, rest, [], .panicked⟩
          | some sts =>
            ⟨⟨us.foldl (fun a u => (unwindTip a u).2) w, true, mt, stored.height⟩, rest,
              sts.map (·.header), .broke⟩

/-- How a dispatch ends: a `ProcessResult`, the propagated `NoTip` error, or
an `unwrap()` panic. -/
inductive DRes
  | ok (r : ProcessResult)
  | noTipErr
  | panicked
deriving DecidableEq

/-- Outcome of a headers dispatch: result, the committed header-store state
(pending writes of a pass that returned early are rolled back), the event
trace, plus the final value of the `moved_tip` local and the sequence of all
unwound headers handed out by the store (in processing order). -/
structure DOut where
  res : DRes
  committed : HeaderStore
  trace : List Event
  movedTip : Option Nat
  unwoundLog : List MHeader
deriving DecidableEq

/-- `Dispatcher::get_headers` (dispatcher.rs lines 284-296): send
`GetHeaders(locator, stop = locator[0])` when the locator is non-empty. -/
def getHeadersEvents (s : HeaderStore) : List Event :=
  match headerLocators s with
  | [] => []
  | f :: rest => [Event.send (Msg.getHeaders (f :: rest) f)]

/-- Prefix a continuation's outcome with one pass's observable events: the
pass's `batch()` commit followed by its `BlockDisconnected` notifications
(dispatcher.rs lines 203-210), and record the pass's unwound headers. -/
def withPass (disc : List MHeader) (r : DOut) : DOut :=
  ⟨r.res, r.committed, (Event.batch :: disc.map Event.blockDisconnected) ++ r.trace,
    r.movedTip, disc ++ r.unwoundLog⟩

/-- The outer `while !headers_queue.is_empty()` loop of `Dispatcher::headers`
(dispatcher.rs lines 165-224) plus the function tail: run inner passes; after
a normal pass (`done` or a reorg `break`) `batch()` commits the working state
and the collected disconnected headers are forwarded to the connector; early
returns skip the pass's `batch()`, rolling its pending writes back; finally
`get_headers` is sent if `some_new`, and the result is `Height(height)` if
`moved_tip` is set, else `Ack`.  The `fuel` argument only bounds the
recursion; each pass consumes at least one queued header, so
`queue.length + 1` is always enough. -/
def outerLoop : Nat → HeaderStore → InnerSt → List MHeader → DOut
  | 0, committed, st, _ => ⟨.panicked, committed, [], st.movedTip, []⟩
  | fuel + 1, committed, st, queue =>
    match queue with
    | [] =>
      match st.movedTip with
      | some _ =>
        ⟨.ok (.height st.height), committed,
          if st.someNew then getHeadersEvents committed else [], st.movedTip, []⟩
      | none =>
        ⟨.ok .ack, committed,
          if st.someNew then getHeadersEvents committed else [], st.movedTip, []⟩
    | _ :: _ =>
      match innerLoop st queue with
      | ⟨st', _, _, .pow⟩ => ⟨.ok (.ban 100), committed, [], st'.movedTip, []⟩
      | ⟨st', _, _, .err⟩ => ⟨.ok .ignored, committed, [], st'.movedTip, []⟩
      | ⟨st', _, _, .panicked⟩ => ⟨.panicked, committed, [], st'.movedTip, []⟩
      | ⟨st', rest, disc, .done⟩ => withPass disc (outerLoop fuel st'.work st' rest)
      | ⟨st', rest, disc, .broke⟩ => withPass disc (outerLoop fuel st'.work st' rest)

/-- `Dispatcher::headers` (dispatcher.rs lines 146-228): `Ignored` on an
empty message, `NoTip` if the store has no tip, else the header-queue loop. -/
def headersRun (s : HeaderStore) (headers : List MHeader) : DOut :=
  if headers.isEmpty then ⟨.ok .ignored, s, [], none, []⟩
  else
    match s.tip with
    | none => ⟨.noTipErr, s, [], none, []⟩
    | some t => outerLoop (headers.length + 1) s ⟨s, false, none, t.height⟩ headers

/-- The `for inventory in v` loop of `Dispatcher::inv` (dispatcher.rs lines
238-252): `none` models the early `return Ban(10)` on a non-block entry,
otherwise the accumulated `ask_for_headers` flag. -/
def invLoop (s : HeaderStore) (ask : Bool) : List Inventory → Option Bool
  | [] => some ask
  | i :: rest =>
    if i.invType = InvType.block then
      invLoop s (ask || (s.getHeader i.hash).isNone) rest
    else none

/-- `Dispatcher::inv` (dispatcher.rs lines 236-259): result plus sent
messages. -/
def invHandler (s : HeaderStore) (v : List Inventory) : ProcessResult × List Msg :=
  match invLoop s false v with
  | none => (.ban 10, [])
  | some ask =>
    if ask then
      match headerLocators s with
      | [] => (.ack, [])
      | f :: rest => (.ack, [Msg.getHeaders (f :: rest) f])
    else (.ignored, [])

/-- A network address as the address-handling code sees it: the `services`
bitmap, whether `socket_addr()` succeeds (false for onion addresses), and an
identity. -/
structure MAddress where
  services : Nat
  socketOk : Bool
  addrId : Nat
deriving DecidableEq

/-- The `for a in v.iter()` loop of `Dispatcher::addr` (dispatcher.rs lines
268-278): accumulate the `store_peer(&a.1, a.0, 0)` calls in order and latch
the result to `Ack` on the first store. -/
def addrGo (now : Nat) (acc : List (MAddress × Nat × Nat)) (res : ProcessResult) :
    List (Nat × MAddress) → List (MAddress × Nat × Nat) × ProcessResult
  | [] => (acc, res)
  | a :: rest =>
    if a.2.socketOk then
      if a.2.services &&& 9 = 9 ∧ a.1 > now - 3 * 60 * 30 then
        addrGo now (acc ++ [(a.2, a.1, 0)]) .ack rest
      else addrGo now acc res rest
    else addrGo now acc res rest

/-- `Dispatcher::addr` (dispatcher.rs lines 262-281): the stored peer records
in order, and the final `ProcessResult`. -/
def addrHandler (now : Nat) (v : List (Nat × MAddress)) :
    List (MAddress × Nat × Nat) × ProcessResult :=
  addrGo now [] .ignored v

/-- Modelled from the spec: `get_tip()` of the node's transactional store —
the current tip hash, if its header is present. -/
def getTip (s : HeaderStore) : Option Nat :=
  match s.tip with
  | some _ => some s.tipHash
  | none => none

/-- Modelled from the spec: `insert_header` of the node's store — like
`add_header`, returning whether the header was newly stored. -/
def insertHeader (s : HeaderStore) (h : MHeader) : Except SPVError (Bool × HeaderStore) :=
  match addHeader s h with
  | .error e => .error e
  | .ok (_, s') => .ok (decide (s.stored.length < s'.stored.length), s')

/-- Modelled from the spec: `is_on_trunk(hash)` — whether the hash lies on
the path from the tip back to genesis. -/
def isOnTrunk (s : HeaderStore) (x : Nat) : Bool :=
  (s.anc s.tipHash).contains x

/-- The `while !tx.is_on_trunk(&old_tip)` walk of `Node::headers` (node.rs
lines 191-196).  The Rust loop has no `else`: when `get_header` misses the
loop spins forever, which the fuel exhaustion (`none`) models. -/
def reorgWalk (s : HeaderStore) : Nat → Nat → List MHeader → Option (List MHeader)
  | 0, _, _ => none
  | fuel + 1, oldTip, acc =>
    if isOnTrunk s oldTip then some acc
    else
      match s.getHeader oldTip with
      | some oldHeader => reorgWalk s fuel oldHeader.header.prev (acc ++ [oldHeader.header])
      | none => reorgWalk s fuel oldTip acc

/-- Locals of the `for header in headers` loop of `Node::headers` when it
ends: working store, disconnected headers, `download` list, `some_new`,
`tip_moved`, and how the loop ended. -/
structure NLoopOut where
  work : HeaderStore
  disc : List MHeader
  download : List Nat
  someNew : Bool
  tipMoved : Bool
  exit : InnerExit
deriving DecidableEq

/-- The `for header in headers` loop of `Node::headers` (node.rs lines
180-211): skip a header when `get_tip` is empty; `insert_header` each header;
track `tip_moved` and `some_new`; on `header_hash == new_tip &&
prev_blockhash != old_tip` walk the old branch collecting disconnected
headers; push `new_tip` onto `download`; `Ban(100)` on bad PoW, `Ignored` on
other errors. -/
def nodeLoop (work : HeaderStore) (disc : List MHeader) (download : List Nat)
    (someNew tipMoved : Bool) : List MHeader → NLoopOut
  | [] => ⟨work, disc, download, someNew, tipMoved, .done⟩
  | h :: rest =>
    match getTip work with
    | none => nodeLoop work disc download someNew tipMoved rest
    | some oldTip =>
      match insertHeader work h with
      | .error .spvBadProofOfWork => ⟨work, disc, download, someNew, tipMoved, .pow⟩
      | .error _ => ⟨work, disc, download, someNew, tipMoved, .err⟩
      | .ok (stored, w) =>
        match getTip w with
        | none => nodeLoop w disc download someNew tipMoved rest
        | some newTip =>
          if h.hash = newTip ∧ h.prev ≠ oldTip then
            match reorgWalk w (w.stored.length + 1) oldTip [] with
            | none =>
              ⟨w, disc, download, someNew || stored, tipMoved || decide (newTip ≠ oldTip), .panicked⟩
            | some newDisc =>
              nodeLoop w (disc ++ newDisc) (download ++ [newTip])
                (someNew || stored) (tipMoved || decide (newTip ≠ oldTip)) rest
          else
            nodeLoop w disc (download ++ [newTip])
              (someNew || stored) (tipMoved || decide (newTip ≠ oldTip)) rest

/-- `Node::download_blocks` (node.rs lines 125-138): find the first input
hash not already queued, append the input from that position, then request
the queue front as a witness block if any; returns the new queue, the sent
messages and the `Ok(bool)` of the Rust function. -/
def enqueue (dq : List Nat) (blocks : List Nat) : List Nat :=
  match blocks.findIdx? (fun b => !(dq.contains b)) with
  | some i => dq ++ blocks.drop i
  | none => dq

/-- The send-and-report part of `Node::download_blocks`. -/
def downloadBlocks (dq : List Nat) (blocks : List Nat) : List Nat × List Msg × Bool :=
  match enqueue dq blocks with
  | ask :: rest => (ask :: rest, [Msg.getData [(InvType.witnessBlock, ask)]], true)
  | [] => ([], [], false)

/-- `Node::get_headers` (node.rs lines 335-351): first `download_blocks` with
an empty list; only when that sent nothing and the locator is non-empty is
`GetHeaders(locator, stop = locator[0])` sent. -/
def nodeGetHeaders (dq : List Nat) (locator : List Nat) : List Nat × List Msg :=
  match downloadBlocks dq [] with
  | (dq', msgs, true) => (dq', msgs)
  | (dq', msgs, false) =>
    match locator with
    | [] => (dq', msgs)
    | f :: _ => (dq', msgs ++ [Msg.getHeaders locator f])

/-- Outcome of a `Node` dispatch: result, committed store, download queue,
sent messages and the disconnected headers notified to the connector. -/
structure NOut where
  res : DRes
  committed : HeaderStore
  dq : List Nat
  msgs : List Msg
  disc : List MHeader
deriving DecidableEq

/-- `Node::headers` (node.rs lines 164-254): run the header loop; on early
exits the transaction is dropped, rolling the store back; else read the new
tip's height (`NoTip` if absent); if `tip_moved` commit, `download_blocks`
the collected tips, notify the disconnected headers, page more headers when
`some_new`, and answer `Height(height)`; otherwise commit and answer
`Ban(5)`. -/
def nodeHeaders (s : HeaderStore) (dq : List Nat) (locator : List Nat)
    (headers : List MHeader) : NOut :=
  if headers.isEmpty then ⟨.ok .ignored, s, dq, [], []⟩
  else
    match nodeLoop s [] [] false false headers with
    | ⟨_, _, _, _, _, .pow⟩ => ⟨.ok (.ban 100), s, dq, [], []⟩
    | ⟨_, _, _, _, _, .err⟩ => ⟨.ok .ignored, s, dq, [], []⟩
    | ⟨_, _, _, _, _, .panicked⟩ => ⟨.panicked, s, dq, [], []⟩
    | ⟨_, _, _, _, _, .broke⟩ => ⟨.panicked, s, dq, [], []⟩
    | ⟨work, disc, download, someNew, tipMoved, .done⟩ =>
      match getTip work with
      | none => ⟨.noTipErr, s, dq, [], []⟩
      | some newTip =>
        match work.getHeader newTip with
        | none => ⟨.noTipErr, s, dq, [], []⟩
        | some tipSt =>
          if tipMoved then
            match downloadBlocks dq download with
            | (dq₁, msgs₁, _) =>
              match (if someNew then nodeGetHeaders dq₁ locator else (dq₁, [])) with
              | (dq₂, msgs₂) => ⟨.ok (.height tipSt.height), work, dq₂, msgs₁ ++ msgs₂, disc⟩
          else ⟨.ok (.ban 5), work, dq, [], []⟩

/-- The node state `Node::block` operates on: the download queue, the hashes
of stored blocks (the block store is external), and the locator the node's
store would answer (`locator_hashes`, modelled from the spec). -/
structure NodeSt where
  dq : List Nat
  blocks : List Nat
  locator : List Nat
deriving DecidableEq

/-- `Node::block` (node.rs lines 257-274): store the block; pop the download
queue front and push it back unless it equals the block's hash; then
`get_headers` to the delivering peer; result `Ack`. -/
def nodeBlock (st : NodeSt) (bhash : Nat) : NodeSt × List Msg × ProcessResult :=
  match nodeGetHeaders
      (match st.dq with
       | [] => []
       | e :: rest => if e ≠ bhash then e :: rest else rest) st.locator with
  | (dq', msgs) => (⟨dq', st.blocks ++ [bhash], st.locator⟩, msgs, .ack)

/-- State of the `KeepConnected` future (constructor.rs lines 154-162):
the outstanding connections (modelled by the dialed addresses) and the
`dns` cache. -/
structure KCState where
  connections : List Nat
  dns : List Nat
deriving DecidableEq

/-- `KeepConnected::dns_lookup` (constructor.rs lines 231-242): while under
the connection quota, refresh the `dns` cache from the seeds when it is
empty, and when it is non-empty dial a random cache entry.  `rng` supplies
the successive `next_u64` values; the loop has no exit for an empty refresh,
so `fuel` exhaustion (`none`) marks a loop that is still running. -/
def dnsLookupGo (seeds : List Nat) (minConn : Nat) (rng : Nat → Nat) :
    Nat → Nat → KCState → Option KCState
  | 0, _, _ => none
  | fuel + 1, k, st =>
    if st.connections.length < minConn then
      match (if st.dns.length = 0 then seeds else st.dns) with
      | [] => dnsLookupGo seeds minConn rng fuel (k + 1) ⟨st.connections, []⟩
      | d :: ds =>
        dnsLookupGo seeds minConn rng fuel (k + 1)
          ⟨st.connections ++ [(d :: ds).getD (rng k % (d :: ds).length) 0], d :: ds⟩
    else some st

/-- Genesis header of the concrete test chain. -/
def hG : MHeader := ⟨1, 0, true, 5⟩

/-- A header extending genesis (the incumbent tip of `cexStore`). -/
def hX : MHeader := ⟨2, 1, true, 10⟩

/-- A sibling of `hX` with less work. -/
def hY1 : MHeader := ⟨3, 1, true, 3⟩

/-- A child of `hY1` outweighing the `hX` branch (triggers a reorg). -/
def hY2 : MHeader := ⟨4, 3, true, 100⟩

/-- A header failing the proof-of-work check. -/
def hBad : MHeader := ⟨5, 4, false, 1⟩

/-- A store holding only genesis. -/
def genStore : HeaderStore := ⟨[⟨hG, 0, 5⟩], 1⟩

/-- A store holding genesis and `hX`, with `hX` as tip. -/
def cexStore : HeaderStore := ⟨[⟨hX, 1, 15⟩, ⟨hG, 0, 5⟩], 2⟩

example : (headersRun cexStore [hY1, hY2, hBad]).res = .ok (.ban 100) := by decide
example : (headersRun cexStore [hY1, hY2, hBad]).trace
    = [Event.batch, Event.blockDisconnected hX] := by decide
example : (headersRun cexStore [hY1, hY2, hBad]).committed ≠ cexStore := by decide
example : (headersRun genStore [hX]).res = .ok (.height 1) := by decide
example : (headersRun genStore [hX]).trace
    = [Event.batch, Event.send (Msg.getHeaders [2, 1] 2)] := by decide
example : (headersRun cexStore [hX]).res = .ok .ack := by decide
example : (nodeHeaders cexStore [] [] [hX]).res = .ok (.ban 5) := by decide
example : nodeBlock ⟨[1, 2], [], [9]⟩ 1
    = (⟨[2], [1], [9]⟩, [Msg.getData [(InvType.witnessBlock, 2)]], .ack) := by decide
example : enqueue [1] [2, 1] = [1, 2, 1] := by decide
example : addrHandler 10000 [(4600, ⟨9, true, 0⟩)] = ([], .ignored) := by decide
example : addrHandler 10000 [(9000, ⟨9, true, 1⟩), (100, ⟨9, true, 2⟩)]
    = ([(⟨9, true, 1⟩, 9000, 0)], .ack) := by decide
example : invHandler cexStore [⟨.transaction, 7⟩] = (.ban 10, []) := by decide
example : invHandler cexStore [⟨.block, 9⟩]
    = (.ack, [Msg.getHeaders [2, 1] 2]) := by decide
example : invHandler cexStore [⟨.block, 2⟩] = (.ignored, []) := by decide
example : dnsLookupGo [] 1 (fun _ => 0) 5 0 ⟨[], []⟩ = none := by decide

/-- Every hash an ancestry walk returns has an entry in the store. -/
theorem mem_ancestry_isSome {s : HeaderStore} {fuel : Nat} :
    ∀ {root x : Nat}, x ∈ ancestry s fuel root → (s.getHeader x).isSome := by
  induction fuel with
  | zero => intro root x hx; simp [ancestry] at hx
  | succ n ih =>
    intro root x hx
    simp only [ancestry] at hx
    cases hr : s.getHeader root with
    | none => rw [hr] at hx; simp at hx
    | some st =>
      rw [hr] at hx
      simp only [List.mem_cons] at hx
      rcases hx with rfl | hx
      · simp [hr]
      · exact ih hx

/-- `findStored` skips an entry with a different hash. -/
theorem findStored_cons_ne {st : StoredHeader} {l : List StoredHeader} {x : Nat}
    (hx : st.header.hash ≠ x) : findStored (st :: l) x = findStored l x := by
  simp only [findStored]
  rw [List.find?_cons_of_neg]
  simp [hx]

/-- `findStored` hits an entry with the matching hash at the head. -/
theorem findStored_cons_eq {st : StoredHeader} {l : List StoredHeader}
    (hx : st.header.hash = x) : findStored (st :: l) x = some st := by
  simp only [findStored]
  rw [List.find?_cons_of_pos]
  simp [hx]

/-- What a successful, storing `add_header` guarantees: the header was not
yet known, it is pushed onto the store with the tip retargeted to it, any
`forwards` list ends in the new header's hash, and every unwind hash is a
previously stored hash different from the new tip. -/
theorem addHeader_some {s : HeaderStore} {h : MHeader} {st : StoredHeader}
    {u f : Option (List Nat)} {s₂ : HeaderStore}
    (hh : addHeader s h = .ok (some (st, u, f), s₂)) :
    s.getHeader h.hash = none ∧
    s₂.stored = st :: s.stored ∧ s₂.tipHash = h.hash ∧ st.header = h ∧
    (∃ fs, f = some fs ∧ fs.getLast? = some h.hash) ∧
    (∀ us, u = some us → ∀ x ∈ us, x ≠ h.hash ∧ (s.getHeader x).isSome) := by
  unfold addHeader at hh
  split at hh
  · exact absurd hh (by simp)
  next hpow =>
    split at hh
    next hknown => simp at hh
    next hknown =>
      have hknown' : s.getHeader h.hash = none := by
        cases ho : s.getHeader h.hash with
        | none => rfl
        | some v => exact absurd (by simp [ho] : (s.getHeader h.hash).isSome = true) hknown
      split at hh
      · exact absurd hh (by simp)
      next parent hpar =>
        split at hh
        next hwork =>
          split at hh
          next hext =>
            have h1 := hh
            simp only [Except.ok.injEq, Option.some.injEq, Prod.mk.injEq] at h1
            obtain ⟨⟨hst, hu, hf⟩, hs₂⟩ := h1
            subst hst hu hf
            refine ⟨hknown', ?_, ?_, rfl, ⟨[h.hash], rfl, rfl⟩, ?_⟩
            · rw [← hs₂]
            · rw [← hs₂]
            · intro us hus; simp at hus
          next hext =>
            have h1 := hh
            simp only [Except.ok.injEq, Option.some.injEq, Prod.mk.injEq] at h1
            obtain ⟨⟨hst, hu, hf⟩, hs₂⟩ := h1
            subst hst
            have hmemOld : ∀ x ∈ s.anc s.tipHash, (s.getHeader x).isSome := by
              intro x hx; exact mem_ancestry_isSome hx
            have hnotOld : h.hash ∉ s.anc s.tipHash := by
              intro hmem
              have := hmemOld _ hmem
              rw [hknown'] at this; simp at this
            refine ⟨hknown', ?_, ?_, rfl, ?_, ?_⟩
            · rw [← hs₂]
            · rw [← hs₂]
            · refine ⟨_, hf.symm, ?_⟩
              have hcont : (s.anc s.tipHash).contains h.hash = false := by
                rw [Bool.eq_false_iff]
                intro hc
                exact hnotOld (List.elem_iff.mp hc)
              have hga : HeaderStore.getHeader ⟨⟨h, parent.height + 1, parent.cumWork + h.work⟩ :: s.stored, h.hash⟩ h.hash
                  = some ⟨h, parent.height + 1, parent.cumWork + h.work⟩ :=
                findStored_cons_eq rfl
              have hanc : HeaderStore.anc ⟨⟨h, parent.height + 1, parent.cumWork + h.work⟩ :: s.stored, h.hash⟩ h.hash
                  = h.hash :: ancestry ⟨⟨h, parent.height + 1, parent.cumWork + h.work⟩ :: s.stored, h.hash⟩
                      (s.stored.length + 1) h.prev := by
                show ancestry _ (List.length _ + 1) _ = _
                simp only [List.length_cons, ancestry, hga]
              rw [List.getLast?_reverse, hanc, List.takeWhile_cons, hcont]
              simp
            · intro us hus x hxus
              rw [← hu] at hus
              have husu := Option.some.inj hus
              rw [← husu] at hxus
              have hxOld : x ∈ s.anc s.tipHash := (List.takeWhile_sublist _).mem hxus
              refine ⟨?_, hmemOld _ hxOld⟩
              intro hxe; rw [hxe] at hxOld; exact hnotOld hxOld
        next hwork => simp at hh

/-- A successful non-storing `add_header` keeps the tip hash and every
stored entry. -/
theorem addHeader_none {s : HeaderStore} {h : MHeader} {s₂ : HeaderStore}
    (hh : addHeader s h = .ok (none, s₂)) :
    s₂.tipHash = s.tipHash ∧ ∀ x st', s.getHeader x = some st' → s₂.getHeader x = some st' := by
  unfold addHeader at hh
  split at hh
  · simp at hh
  next hpow =>
    split at hh
    next hknown =>
      have h1 := hh
      simp only [Except.ok.injEq, Prod.mk.injEq] at h1
      rw [← h1.2]
      exact ⟨rfl, fun x st' hx => hx⟩
    next hknown =>
      have hknown' : s.getHeader h.hash = none := by
        cases ho : s.getHeader h.hash with
        | none => rfl
        | some v => exact absurd (by simp [ho] : (s.getHeader h.hash).isSome = true) hknown
      split at hh
      · simp at hh
      next parent hpar =>
        split at hh
        next hwork =>
          split at hh
          · simp at hh
          · simp at hh
        next hwork =>
          have h1 := hh
          simp only [Except.ok.injEq, Prod.mk.injEq] at h1
          rw [← h1.2]
          refine ⟨rfl, fun x st' hx => ?_⟩
          have hne : (⟨h, parent.height + 1, parent.cumWork + h.work⟩ : StoredHeader).header.hash ≠ x := by
            intro he
            simp only at he
            rw [← he, hknown'] at hx
            cases hx
          show findStored _ x = some st'
          rw [findStored_cons_ne hne]
          exact hx

/-- A successful storing `add_header` keeps every previously stored entry. -/
theorem addHeader_some_pres {s : HeaderStore} {h : MHeader} {st : StoredHeader}
    {u f : Option (List Nat)} {s₂ : HeaderStore}
    (hh : addHeader s h = .ok (some (st, u, f), s₂))
    {x : Nat} {v : StoredHeader} (hx : s.getHeader x = some v) : s₂.getHeader x = some v := by
  obtain ⟨hunk, hstored, _, hhdr, _, _⟩ := addHeader_some hh
  have hne : st.header.hash ≠ x := by
    rw [hhdr]
    intro he
    rw [← he, hunk] at hx
    cases hx
  show findStored s₂.stored x = some v
  rw [hstored, findStored_cons_ne hne]
  exact hx

/-- After a storing `add_header`, the tip is exactly the stored header. -/
theorem addHeader_some_tip {s : HeaderStore} {h : MHeader} {st : StoredHeader}
    {u f : Option (List Nat)} {s₂ : HeaderStore}
    (hh : addHeader s h = .ok (some (st, u, f), s₂)) : s₂.tip = some st := by
  obtain ⟨_, hstored, htip, hhdr, _, _⟩ := addHeader_some hh
  show findStored s₂.stored s₂.tipHash = some st
  rw [htip, hstored]
  exact findStored_cons_eq (by rw [hhdr])

/-- After a non-storing `add_header`, the tip entry is unchanged. -/
theorem addHeader_none_tip {s : HeaderStore} {h : MHeader} {s₂ : HeaderStore} {w : StoredHeader}
    (hh : addHeader s h = .ok (none, s₂)) (ht : s.tip = some w) : s₂.tip = some w := by
  obtain ⟨htip, hpres⟩ := addHeader_none hh
  show s₂.getHeader s₂.tipHash = some w
  rw [htip]
  exact hpres _ _ ht

/-- `unwind_tip` is a no-op on a hash different from the current tip. -/
theorem unwindTip_noop {s : HeaderStore} {x : Nat} (hx : x ≠ s.tipHash) :
    unwindTip s x = (false, s) := by
  simp [unwindTip, hx]

/-- A fold of `unwind_tip` over hashes none of which is the tip leaves the
store unchanged. -/
theorem foldl_unwindTip_noop {s : HeaderStore} {us : List Nat}
    (hus : ∀ x ∈ us, x ≠ s.tipHash) :
    us.foldl (fun a u => (unwindTip a u).2) s = s := by
  induction us with
  | nil => rfl
  | cons u us ih =>
    simp only [List.foldl_cons]
    rw [unwindTip_noop (hus u (by simp))]
    exact ih (fun x hx => hus x (by simp [hx]))

/-- `getAll` succeeds when every hash resolves. -/
theorem getAll_isSome {s : HeaderStore} : ∀ {us : List Nat},
    (∀ x ∈ us, (s.getHeader x).isSome) → ∃ l, getAll s us = some l := by
  intro us
  induction us with
  | nil => intro _; exact ⟨[], rfl⟩
  | cons u us ih =>
    intro hall
    obtain ⟨v, hv⟩ := Option.isSome_iff_exists.mp (hall u (by simp))
    obtain ⟨l, hl⟩ := ih (fun x hx => hall x (by simp [hx]))
    exact ⟨v :: l, by simp [getAll, hv, hl]⟩

/-- One inner pass consumes at least the header it starts with: the leftover
queue is never longer than the input. -/
theorem innerLoop_rest_le : ∀ (q : List MHeader) (st : InnerSt),
    (innerLoop st q).rest.length ≤ q.length := by
  intro q
  induction q with
  | nil => intro st; simp [innerLoop]
  | cons h t ih =>
    intro st
    simp only [innerLoop]
    split
    · exact Nat.le_succ _
    · exact Nat.le_succ _
    · exact Nat.le_succ_of_le (ih _)
    · split
      · exact Nat.le_succ _
      · split
        · exact Nat.le_succ_of_le (ih _)
        · split
          · exact Nat.le_succ _
          · exact Nat.le_succ _

/-- On a non-empty queue one inner pass strictly shrinks the queue. -/
theorem innerLoop_rest_lt (h : MHeader) (t : List MHeader) (st : InnerSt) :
    (innerLoop st (h :: t)).rest.length < (h :: t).length := by
  have : (innerLoop st (h :: t)).rest.length ≤ t.length := by
    simp only [innerLoop]
    split
    · exact Nat.le_refl _
    · exact Nat.le_refl _
    · exact innerLoop_rest_le t _
    · split
      · exact Nat.le_refl _
      · split
        · exact innerLoop_rest_le t _
        · split
          · exact Nat.le_refl _
          · exact Nat.le_refl _
  exact Nat.lt_succ_of_le this

/-- The inner pass never ends in a panic: a returned `forwards` list is
non-empty, the `unwind_tip` calls leave the store unchanged (the tip has
already moved to the freshly stored header, which no unwind hash equals),
and every unwind hash still resolves via `get_header`. -/
theorem innerLoop_never_panics : ∀ (q : List MHeader) (st : InnerSt),
    (innerLoop st q).exit ≠ .panicked := by
  intro q
  induction q with
  | nil => intro st; simp [innerLoop]
  | cons h t ih =>
    intro st
    simp only [innerLoop]
    split
    · simp
    · simp
    · exact ih _
    next stored unwinds forwards w hadd =>
      obtain ⟨hunk, hstored, htip, hhdr, ⟨fs, hfs, hlast⟩, hunw⟩ := addHeader_some hadd
      subst hfs
      simp only [forwardsTip, hlast]
      split
      · exact ih _
      next us =>
        have hprops := hunw us rfl
        have hne : ∀ x ∈ us, x ≠ w.tipHash := by
          intro x hx
          rw [htip]
          exact (hprops x hx).1
        have hfold : us.foldl (fun a u => (unwindTip a u).2) w = w := foldl_unwindTip_noop hne
        have hsome : ∀ x ∈ us, (w.getHeader x).isSome := by
          intro x hx
          obtain ⟨v, hv⟩ := Option.isSome_iff_exists.mp (hprops x hx).2
          rw [addHeader_some_pres hadd hv]
          rfl
        obtain ⟨l, hl⟩ := getAll_isSome hsome
        rw [hfold, hl]
        simp

/-- The `height` local tracks the height of the working store's tip. -/
def heightInv (st : InnerSt) : Prop :=
  ∃ w, st.work.tip = some w ∧ st.height = w.height

/-- One inner pass preserves `heightInv`: a non-storing `add_header` keeps
the tip entry, and a storing one retargets the tip to the stored header whose
height the code copies into `height`. -/
theorem innerLoop_heightInv : ∀ (q : List MHeader) (st : InnerSt),
    heightInv st → heightInv (innerLoop st q).st := by
  intro q
  induction q with
  | nil => intro st hst; simpa [innerLoop] using hst
  | cons h t ih =>
    intro st hst
    simp only [innerLoop]
    split
    · exact hst
    · exact hst
    next w hadd =>
      obtain ⟨wst, htipw, hh⟩ := hst
      exact ih _ ⟨wst, addHeader_none_tip hadd htipw, hh⟩
    next stored unwinds forwards w hadd =>
      obtain ⟨hunk, hstored, htip, hhdr, ⟨fs, hfs, hlast⟩, hunw⟩ := addHeader_some hadd
      subst hfs
      simp only [forwardsTip, hlast]
      split
      · exact ih _ ⟨stored, addHeader_some_tip hadd, rfl⟩
      next us =>
        have hprops := hunw us rfl
        have hne : ∀ x ∈ us, x ≠ w.tipHash := by
          intro x hx
          rw [htip]
          exact (hprops x hx).1
        have hfold : us.foldl (fun a u => (unwindTip a u).2) w = w := foldl_unwindTip_noop hne
        have hsome : ∀ x ∈ us, (w.getHeader x).isSome := by
          intro x hx
          obtain ⟨v, hv⟩ := Option.isSome_iff_exists.mp (hprops x hx).2
          rw [addHeader_some_pres hadd hv]
          rfl
        obtain ⟨l, hl⟩ := getAll_isSome hsome
        rw [hfold, hl]
        exact ⟨stored, addHeader_some_tip hadd, rfl⟩

/-- The outer loop never yields a panicked dispatch (given enough fuel). -/
theorem outer_never_panics : ∀ (fuel : Nat) (c : HeaderStore) (st : InnerSt) (q : List MHeader),
    q.length < fuel → (outerLoop fuel c st q).res ≠ .panicked := by
  intro fuel
  induction fuel with
  | zero => intro c st q hq; exact absurd hq (Nat.not_lt_zero _)
  | succ n ih =>
    intro c st q hq
    cases q with
    | nil =>
      simp only [outerLoop]
      cases st.movedTip <;> simp
    | cons h t =>
      rcases hey : innerLoop st (h :: t) with ⟨st', rest, disc, ex⟩
      have hlt : rest.length < n := by
        have h1 := innerLoop_rest_lt h t st
        rw [hey] at h1
        simp only [List.length_cons] at h1 hq
        omega
      cases ex with
      | pow => simp [outerLoop, hey]
      | err => simp [outerLoop, hey]
      | panicked =>
        have := innerLoop_never_panics (h :: t) st
        rw [hey] at this
        simp at this
      | done =>
        simp only [outerLoop, hey, withPass]
        exact ih st'.work st' rest hlt
      | broke =>
        simp only [outerLoop, hey, withPass]
        exact ih st'.work st' rest hlt

/-- A dispatch outcome that carries an ordinary success result. -/
def errorFree (o : DOut) : Prop :=
  o.res = .ok .ack ∨ ∃ n, o.res = .ok (.height n)

/-- A trace consisting only of peer sends. -/
def sendsOnly (tr : List Event) : Prop :=
  ∀ e ∈ tr, ∃ m, e = Event.send m

/-- `get_headers` only emits sends. -/
theorem sendsOnly_getHeadersEvents (s : HeaderStore) : sendsOnly (getHeadersEvents s) := by
  unfold getHeadersEvents
  split
  · intro e he; cases he
  · intro e he
    simp only [List.mem_singleton] at he
    exact ⟨_, he⟩

/-- The trace of the outer loop decomposes into passes — each a `batch()`
commit followed by that pass's `BlockDisconnected` notifications — and a
trailing segment of sends; the concatenation of the per-pass disconnected
headers is exactly the unwound-header log. -/
theorem outer_trace_shape : ∀ (fuel : Nat) (c : HeaderStore) (st : InnerSt) (q : List MHeader),
    q.length < fuel →
    ∃ (ps : List (List MHeader)) (tail : List Event), (outerLoop fuel c st q).trace
        = (ps.map (fun ds => Event.batch :: ds.map Event.blockDisconnected)).flatten ++ tail
      ∧ sendsOnly tail
      ∧ ps.flatten = (outerLoop fuel c st q).unwoundLog := by
  intro fuel
  induction fuel with
  | zero => intro c st q hq; exact absurd hq (Nat.not_lt_zero _)
  | succ n ih =>
    intro c st q hq
    cases q with
    | nil =>
      refine ⟨[], if st.someNew then getHeadersEvents c else [], ?_, ?_, ?_⟩
      · simp only [outerLoop]
        cases st.movedTip <;> simp
      · split
        · exact sendsOnly_getHeadersEvents c
        · intro e he; cases he
      · simp only [outerLoop]
        cases st.movedTip <;> simp
    | cons h t =>
      rcases hey : innerLoop st (h :: t) with ⟨st', rest, disc, ex⟩
      have hlt : rest.length < n := by
        have h1 := innerLoop_rest_lt h t st
        rw [hey] at h1
        simp only [List.length_cons] at h1 hq
        omega
      cases ex with
      | pow => exact ⟨[], [], by simp [outerLoop, hey], fun e he => absurd he (by simp), by simp [outerLoop, hey]⟩
      | err => exact ⟨[], [], by simp [outerLoop, hey], fun e he => absurd he (by simp), by simp [outerLoop, hey]⟩
      | panicked => exact ⟨[], [], by simp [outerLoop, hey], fun e he => absurd he (by simp), by simp [outerLoop, hey]⟩
      | done =>
        obtain ⟨ps, tail, htr, hso, hlog⟩ := ih st'.work st' rest hlt
        refine ⟨disc :: ps, tail, ?_, hso, ?_⟩
        · simp only [outerLoop, hey, withPass, List.map_cons, List.flatten_cons, htr]
          simp [List.append_assoc]
        · simp only [outerLoop, hey, withPass, List.flatten_cons]
          rw [hlog]
      | broke =>
        obtain ⟨ps, tail, htr, hso, hlog⟩ := ih st'.work st' rest hlt
        refine ⟨disc :: ps, tail, ?_, hso, ?_⟩
        · simp only [outerLoop, hey, withPass, List.map_cons, List.flatten_cons, htr]
          simp [List.append_assoc]
        · simp only [outerLoop, hey, withPass, List.flatten_cons]
          rw [hlog]

/-- The `Height`/`Ack` decision of an error-free outer run: `Height` carries
the final tip's height exactly when `moved_tip` is set, else the result is
`Ack`. -/
theorem outer_height : ∀ (fuel : Nat) (st : InnerSt) (q : List MHeader),
    q.length < fuel → heightInv st →
    errorFree (outerLoop fuel st.work st q) →
    ((outerLoop fuel st.work st q).movedTip.isSome →
      ∃ w, (outerLoop fuel st.work st q).committed.tip = some w ∧
        (outerLoop fuel st.work st q).res = .ok (.height w.height)) ∧
    ((outerLoop fuel st.work st q).movedTip = none →
      (outerLoop fuel st.work st q).res = .ok .ack) := by
  intro fuel
  induction fuel with
  | zero => intro st q hq; exact absurd hq (Nat.not_lt_zero _)
  | succ n ih =>
    intro st q hq hinv herr
    cases q with
    | nil =>
      obtain ⟨w, htw, hhw⟩ := hinv
      cases hmt : st.movedTip with
      | some v =>
        constructor
        · intro _
          refine ⟨w, ?_, ?_⟩
          · simp only [outerLoop, hmt]
            exact htw
          · simp only [outerLoop, hmt, hhw]
        · intro habs
          simp only [outerLoop, hmt] at habs
          cases habs
      | none =>
        constructor
        · intro habs
          simp only [outerLoop, hmt, Option.isSome_none] at habs
          cases habs
        · intro _
          simp only [outerLoop, hmt]
    | cons h t =>
      rcases hey : innerLoop st (h :: t) with ⟨st', rest, disc, ex⟩
      have hlt : rest.length < n := by
        have h1 := innerLoop_rest_lt h t st
        rw [hey] at h1
        simp only [List.length_cons] at h1 hq
        omega
      have hinv' : heightInv st' := by
        have h2 := innerLoop_heightInv (h :: t) st hinv
        rw [hey] at h2
        exact h2
      cases ex with
      | pow =>
        exfalso
        simp only [outerLoop, hey, errorFree] at herr
        rcases herr with habs | ⟨m, habs⟩ <;> cases habs
      | err =>
        exfalso
        simp only [outerLoop, hey, errorFree] at herr
        rcases herr with habs | ⟨m, habs⟩ <;> cases habs
      | panicked =>
        exfalso
        have := innerLoop_never_panics (h :: t) st
        rw [hey] at this
        simp at this
      | done =>
        simp only [outerLoop, hey, withPass] at herr ⊢
        exact ih st' rest hlt hinv' herr
      | broke =>
        simp only [outerLoop, hey, withPass] at herr ⊢
        exact ih st' rest hlt hinv' herr

/-- C10: in the dispatcher's headers path the `unwrap()` calls never panic —
for every `Some(stored, unwinds, forwards)` result of `add_header` the
`forwards` list behind a `Some` is non-empty, and every unwind hash still
resolves via `get_header` after `unwind_tip` was applied to it, so
`Dispatcher::headers` never reaches a panicking state. -/
theorem c10_unwraps_safe (s : HeaderStore) (hs : List MHeader) :
    (headersRun s hs).res ≠ .panicked := by
  unfold headersRun
  split
  · simp
  · split
    · simp
    · exact outer_never_panics _ _ _ _ (Nat.lt_succ_self _)

/-- C3: the event trace of `Dispatcher::headers` is a concatenation of
passes, each consisting of that pass's `batch()` commit followed by exactly
the pass's unwound headers as `BlockDisconnected` notifications in the order
the store returned them (old tip down to the fork, exclusive, by the
spec-modelled `add_header`), followed only by peer sends; the notified
headers across the dispatch are exactly the unwound-header log, once each. -/
theorem c3_disconnect_after_batch (s : HeaderStore) (hs : List MHeader) :
    ∃ (ps : List (List MHeader)) (tail : List Event),
      (headersRun s hs).trace
          = (ps.map (fun ds => Event.batch :: ds.map Event.blockDisconnected)).flatten ++ tail
        ∧ sendsOnly tail
        ∧ ps.flatten = (headersRun s hs).unwoundLog := by
  unfold headersRun
  split
  · exact ⟨[], [], by simp, fun e he => absurd he (by simp), by simp⟩
  · split
    · exact ⟨[], [], by simp, fun e he => absurd he (by simp), by simp⟩
    · exact outer_trace_shape _ _ _ _ (Nat.lt_succ_self _)

/-- C4: a non-empty Headers message processed without error yields
`Height(h)` with `h` the height of the committed store's new tip exactly when
some `add_header` returned a `forwards` list (the final `moved_tip`), and
`Ack` otherwise. -/
theorem c4_height_iff_moved (s : HeaderStore) (hs : List MHeader) (t : StoredHeader)
    (hne : hs ≠ []) (ht : s.tip = some t)
    (herr : errorFree (headersRun s hs)) :
    ((headersRun s hs).movedTip.isSome →
      ∃ w, (headersRun s hs).committed.tip = some w ∧
        (headersRun s hs).res = .ok (.height w.height)) ∧
    ((headersRun s hs).movedTip = none → (headersRun s hs).res = .ok .ack) := by
  have hie : hs.isEmpty = false := by
    cases hs with
    | nil => exact absurd rfl hne
    | cons a l => rfl
  have hrw : headersRun s hs = outerLoop (hs.length + 1) s ⟨s, false, none, t.height⟩ hs := by
    unfold headersRun
    rw [if_neg (by simp [hie]), ht]
  rw [hrw] at herr ⊢
  exact outer_height (hs.length + 1) ⟨s, false, none, t.height⟩ hs
    (Nat.lt_succ_self _) ⟨t, ht, rfl⟩ herr

/-- Witness for C4 at a concrete input: one header extending the genesis tip
makes the dispatcher answer with the new tip's height. -/
theorem c4_height_iff_moved_witness :
    ([hX] : List MHeader) ≠ [] ∧ genStore.tip = some ⟨hG, 0, 5⟩ ∧
    errorFree (headersRun genStore [hX]) ∧
    (((headersRun genStore [hX]).movedTip.isSome →
      ∃ w, (headersRun genStore [hX]).committed.tip = some w ∧
        (headersRun genStore [hX]).res = .ok (.height w.height)) ∧
    ((headersRun genStore [hX]).movedTip = none →
      (headersRun genStore [hX]).res = .ok .ack)) :=
  ⟨by decide, by decide, Or.inr ⟨1, by decide⟩,
    c4_height_iff_moved genStore [hX] ⟨hG, 0, 5⟩ (by decide) (by decide) (Or.inr ⟨1, by decide⟩)⟩

/-- C2 (amended): when `add_header` fails with `BadProofOfWork` during the
first inner pass — i.e. before any reorg `break` has triggered a `batch()` —
the dispatcher returns `Ban(100)` immediately, no `batch()` event occurs, and
the committed header store is unchanged. -/
theorem c2_first_pass_pow (s : HeaderStore) (hs : List MHeader) (t : StoredHeader)
    (ht : s.tip = some t)
    (hpow : (innerLoop ⟨s, false, none, t.height⟩ hs).exit = .pow) :
    (headersRun s hs).res = .ok (.ban 100) ∧ (headersRun s hs).committed = s ∧
      (headersRun s hs).trace = [] := by
  have hne : hs ≠ [] := by
    intro he
    rw [he] at hpow
    simp [innerLoop] at hpow
  have hie : hs.isEmpty = false := by
    cases hs with
    | nil => exact absurd rfl hne
    | cons a l => rfl
  have hrw : headersRun s hs = outerLoop (hs.length + 1) s ⟨s, false, none, t.height⟩ hs := by
    unfold headersRun
    rw [if_neg (by simp [hie]), ht]
  rw [hrw]
  cases hs with
  | nil => exact absurd rfl hne
  | cons h tl =>
    rcases hey : innerLoop ⟨s, false, none, t.height⟩ (h :: tl) with ⟨st', rest, disc, ex⟩
    rw [hey] at hpow
    simp only at hpow
    subst hpow
    simp [outerLoop, hey]

/-- Witness for C2's amended statement: a single bad-PoW header leaves the
store untouched and draws `Ban(100)` with an empty trace. -/
theorem c2_first_pass_pow_witness :
    cexStore.tip = some ⟨hX, 1, 15⟩ ∧
    (innerLoop ⟨cexStore, false, none, 1⟩ [hBad]).exit = .pow ∧
    ((headersRun cexStore [hBad]).res = .ok (.ban 100) ∧
      (headersRun cexStore [hBad]).committed = cexStore ∧
      (headersRun cexStore [hBad]).trace = []) :=
  ⟨by decide, by decide, c2_first_pass_pow cexStore [hBad] ⟨hX, 1, 15⟩ (by decide) (by decide)⟩

/-- Counterexample to C2 as stated: in the dispatch of
`[hY1, hY2, hBad]` the reorg triggered by `hY2` commits a `batch()` before
`hBad` fails the PoW check, so the dispatch answers `Ban(100)` although a
batch was performed and the committed header store differs from the initial
one. -/
theorem c2_counterexample :
    (headersRun cexStore [hY1, hY2, hBad]).res = .ok (.ban 100) ∧
    Event.batch ∈ (headersRun cexStore [hY1, hY2, hBad]).trace ∧
    (headersRun cexStore [hY1, hY2, hBad]).committed ≠ cexStore := by
  decide

/-- Adding an already-known (and PoW-valid) header is a no-op `Ok(None)`. -/
theorem addHeader_known {s : HeaderStore} {h : MHeader}
    (hp : h.powOk = true) (hk : (s.getHeader h.hash).isSome) :
    addHeader s h = .ok (none, s) := by
  unfold addHeader
  rw [if_neg (by simp [hp]), if_pos hk]

/-- An inner pass over only known, PoW-valid headers changes nothing and
ends with the queue exhausted. -/
theorem innerLoop_all_known : ∀ (q : List MHeader) (st : InnerSt),
    (∀ h ∈ q, h.powOk = true ∧ (st.work.getHeader h.hash).isSome) →
    innerLoop st q = ⟨st, [], [], .done⟩ := by
  intro q
  induction q with
  | nil => intro st _; rfl
  | cons h t ih =>
    intro st hall
    have h1 := hall h (by simp)
    have hadd : addHeader st.work h = .ok (none, st.work) := addHeader_known h1.1 h1.2
    simp only [innerLoop, hadd]
    exact ih st (fun h' hh' => hall h' (by simp [hh']))

/-- The tip hash lies on the trunk whenever the tip entry exists. -/
theorem isOnTrunk_tip {s : HeaderStore} {tv : StoredHeader} (ht : s.tip = some tv) :
    isOnTrunk s s.tipHash = true := by
  unfold isOnTrunk HeaderStore.anc
  simp only [ancestry]
  rw [show s.getHeader s.tipHash = some tv from ht]
  simp

/-- The node's header loop over only known, PoW-valid headers keeps the
store, the disconnected list and both flags unchanged, only growing the
`download` list. -/
theorem nodeLoop_all_known : ∀ (q : List MHeader) (s : HeaderStore) (tv : StoredHeader)
    (disc : List MHeader) (dl : List Nat),
    s.tip = some tv →
    (∀ h ∈ q, h.powOk = true ∧ (s.getHeader h.hash).isSome) →
    ∃ dl', nodeLoop s disc dl false false q = ⟨s, disc, dl', false, false, .done⟩ := by
  intro q
  induction q with
  | nil => intro s tv disc dl _ _; exact ⟨dl, rfl⟩
  | cons h t ih =>
    intro s tv disc dl ht hall
    have h1 := hall h (by simp)
    have hgt : getTip s = some s.tipHash := by
      unfold getTip
      rw [ht]
    have hadd : addHeader s h = .ok (none, s) := addHeader_known h1.1 h1.2
    have hins : insertHeader s h = .ok (false, s) := by
      unfold insertHeader
      rw [hadd]
      simp
    simp only [nodeLoop, hgt, hins]
    have htl : ∀ h' ∈ t, h'.powOk = true ∧ (s.getHeader h'.hash).isSome :=
      fun h' hh' => hall h' (by simp [hh'])
    by_cases hcond : h.hash = s.tipHash ∧ h.prev ≠ s.tipHash
    · rw [if_pos hcond]
      have hwalk : reorgWalk s (s.stored.length + 1) s.tipHash [] = some [] := by
        simp only [reorgWalk, isOnTrunk_tip ht]
        rfl
      rw [hwalk]
      simp only [Bool.or_false, decide_not]
      have := ih s tv (disc ++ []) (dl ++ [s.tipHash]) ht htl
      simpa using this
    · rw [if_neg hcond]
      have := ih s tv disc (dl ++ [s.tipHash]) ht htl
      simpa using this

/-- C9: the two headers handlers diverge on a non-empty all-known batch —
`Node::headers` answers `Ban(5)` while `Dispatcher::headers` answers `Ack`. -/
theorem c9_headers_divergence (s : HeaderStore) (dq loc : List Nat) (hs : List MHeader)
    (t : StoredHeader) (ht : s.tip = some t) (hne : hs ≠ [])
    (hall : ∀ h ∈ hs, h.powOk = true ∧ (s.getHeader h.hash).isSome) :
    (nodeHeaders s dq loc hs).res = .ok (.ban 5) ∧ (headersRun s hs).res = .ok .ack := by
  have hie : hs.isEmpty = false := by
    cases hs with
    | nil => exact absurd rfl hne
    | cons a l => rfl
  constructor
  · obtain ⟨dl', hdl⟩ := nodeLoop_all_known hs s t [] [] ht hall
    have hgt : getTip s = some s.tipHash := by
      unfold getTip
      rw [ht]
    simp only [nodeHeaders, hie, Bool.false_eq_true, if_false, hdl, hgt,
      show s.getHeader s.tipHash = some t from ht]
  · have hrw : headersRun s hs = outerLoop (hs.length + 1) s ⟨s, false, none, t.height⟩ hs := by
      unfold headersRun
      rw [if_neg (by simp [hie]), ht]
    rw [hrw]
    cases hs with
    | nil => exact absurd rfl hne
    | cons h tl =>
      have hey := innerLoop_all_known (h :: tl) ⟨s, false, none, t.height⟩
        (fun h' hh' => hall h' hh')
      simp only [outerLoop, hey, withPass]

/-- Witness for C9 at a concrete input: resending the tip header of
`cexStore`. -/
theorem c9_headers_divergence_witness :
    cexStore.tip = some ⟨hX, 1, 15⟩ ∧ ([hX] : List MHeader) ≠ [] ∧
    ((nodeHeaders cexStore [] [] [hX]).res = .ok (.ban 5) ∧
      (headersRun cexStore [hX]).res = .ok .ack) :=
  ⟨by decide, by decide,
    c9_headers_divergence cexStore [] [] [hX] ⟨hX, 1, 15⟩ (by decide) (by decide)
      (by decide)⟩

/-- The queue update of `Node::block`: pop the front iff it equals the
block's hash, else leave the queue unchanged. -/
def popIfFront (dq : List Nat) (h : Nat) : List Nat :=
  match dq with
  | [] => []
  | e :: rest => if e = h then rest else e :: rest

/-- What `Node::block`'s trailing `get_headers` call actually sends: a
`GetData` for the queue front when the download queue is non-empty, else a
`GetHeaders` when the locator is non-empty. -/
def blockMsgsSpec (dq loc : List Nat) : List Msg :=
  match dq with
  | ask :: _ => [Msg.getData [(InvType.witnessBlock, ask)]]
  | [] =>
    match loc with
    | [] => []
    | f :: _ => [Msg.getHeaders loc f]

/-- Whether a message is a `GetHeaders`. -/
def isGetHeadersMsg : Msg → Bool
  | .getHeaders _ _ => true
  | _ => false

/-- C1 (amended): `Node::block` stores the block, pops the download queue
front iff it equals the block's hash, then sends a `GetData` for the next
queued block when the queue is non-empty and a `GetHeaders` only when the
queue is empty and the locator is non-empty; the result is `Ack`. -/
theorem c1_block_characterization (st : NodeSt) (b : Nat) :
    nodeBlock st b = (⟨popIfFront st.dq b, st.blocks ++ [b], st.locator⟩,
      blockMsgsSpec (popIfFront st.dq b) st.locator, .ack) := by
  obtain ⟨dq, blocks, loc⟩ := st
  cases dq with
  | nil =>
    cases loc with
    | nil => rfl
    | cons f l => rfl
  | cons e rest =>
    by_cases he : e = b
    · have h2 : ¬ (e ≠ b) := fun hne => hne he
      simp only [nodeBlock, popIfFront, if_neg h2, if_pos he]
      cases rest with
      | nil =>
        cases loc with
        | nil => rfl
        | cons f l => rfl
      | cons x xs => rfl
    · simp only [nodeBlock, popIfFront, if_pos he, if_neg he]
      rfl

/-- Counterexample to C1 as stated: with download queue `[1, 2]` and a
non-empty locator, the matching block `1` is stored and popped, but the node
then requests the next queued block via `GetData` — no `GetHeaders` is sent
to the delivering peer. -/
theorem c1_counterexample :
    nodeBlock ⟨[1, 2], [], [9]⟩ 1
      = (⟨[2], [1], [9]⟩, [Msg.getData [(InvType.witnessBlock, 2)]], .ack) ∧
    (nodeBlock ⟨[1, 2], [], [9]⟩ 1).2.1.any isGetHeadersMsg = false := by
  decide

/-- `findIdx?` misses when the predicate fails on every element. -/
theorem findIdx?_none_of_all_false {p : Nat → Bool} :
    ∀ (l : List Nat) (i : Nat), (∀ b ∈ l, p b = false) → List.findIdx? p l i = none := by
  intro l
  induction l with
  | nil => intro i _; rfl
  | cons x xs ih =>
    intro i hall
    have hx := hall x (by simp)
    simp only [List.findIdx?, hx, Bool.false_eq_true, if_false]
    exact ih (i + 1) (fun b hb => hall b (by simp [hb]))

/-- `findIdx?` finds the head of the suffix after a prefix of failures. -/
theorem findIdx?_append_first {p : Nat → Bool} (x : Nat) (xs : List Nat) (hx : p x = true) :
    ∀ (pre : List Nat) (i : Nat), (∀ b ∈ pre, p b = false) →
    List.findIdx? p (pre ++ x :: xs) i = some (i + pre.length) := by
  intro pre
  induction pre with
  | nil =>
    intro i _
    simp [List.findIdx?, hx]
  | cons a l ih =>
    intro i hall
    have ha := hall a (by simp)
    simp only [List.cons_append, List.findIdx?, ha, Bool.false_eq_true, if_false,
      List.append_eq]
    rw [ih (i + 1) (fun b hb => hall b (by simp [hb]))]
    simp only [List.length_cons]
    congr 1
    omega

/-- `enqueue` of an input whose queue members form a prefix appends exactly
the member-free suffix. -/
theorem enqueue_prefix_suffix {dq pre suf : List Nat}
    (hpre : ∀ b ∈ pre, b ∈ dq) (hsuf : ∀ b ∈ suf, b ∉ dq) :
    enqueue dq (pre ++ suf) = dq ++ suf := by
  have hpd : ∀ b ∈ pre, (fun c => !(dq.contains c)) b = false := by
    intro b hb
    simpa using hpre b hb
  unfold enqueue
  cases suf with
  | nil =>
    rw [findIdx?_none_of_all_false (pre ++ []) 0 (by simpa using hpd)]
    simp
  | cons x xs =>
    have hx : (fun c => !(dq.contains c)) x = true := by
      simpa using hsuf x (by simp)
    rw [findIdx?_append_first x xs hx pre 0 hpd]
    simp only [Nat.zero_add]
    rw [List.drop_left]

/-- C5 (amended): popping preserves duplicate-freeness unconditionally, and
`enqueue` preserves it provided the input list is duplicate-free and its
elements already present in the queue form a prefix of the input. -/
theorem c5_nodup_preservation :
    (∀ (dq : List Nat) (h : Nat), dq.Nodup → (popIfFront dq h).Nodup) ∧
    (∀ (dq pre suf : List Nat), dq.Nodup → (pre ++ suf).Nodup →
      (∀ b ∈ pre, b ∈ dq) → (∀ b ∈ suf, b ∉ dq) →
      (enqueue dq (pre ++ suf)).Nodup) := by
  constructor
  · intro dq h hnd
    cases dq with
    | nil => simp [popIfFront]
    | cons e rest =>
      by_cases he : e = h
      · simp only [popIfFront, if_pos he]
        exact hnd.of_cons
      · simpa only [popIfFront, if_neg he] using hnd
  · intro dq pre suf hdq hps hpre hsuf
    rw [enqueue_prefix_suffix hpre hsuf]
    refine hdq.append (List.Nodup.of_append_right hps) ?_
    intro a ha hab
    exact hsuf a hab ha

/-- Witness for C5's amended statement at concrete inputs. -/
theorem c5_nodup_preservation_witness :
    (popIfFront [1, 2] 1).Nodup ∧ (enqueue [1] ([1] ++ [2])).Nodup :=
  ⟨c5_nodup_preservation.1 [1, 2] 1 (by decide),
   c5_nodup_preservation.2 [1] [1] [2] (by decide) (by decide)
     (by decide) (by decide)⟩

/-- Counterexample to C5 as stated: enqueueing `[2, 1]` onto the queue `[1]`
finds `2` as the first non-member and appends the whole suffix `[2, 1]`,
leaving the duplicate `1` in the queue. -/
theorem c5_counterexample :
    enqueue [1] [2, 1] = [1, 2, 1] ∧ ¬ ([1, 2, 1] : List Nat).Nodup := by
  decide

/-- C6: the DNS refill loop of `KeepConnected::dns_lookup` does not
terminate when the seed lookup returns an empty list while the node is under
its connection quota — for every fuel bound the loop is still running, since
an iteration changes nothing and the loop has no exit for an empty refresh. -/
theorem c6_dns_refill_diverges (fuel k m : Nat) (rng : Nat → Nat) :
    dnsLookupGo [] (m + 1) rng fuel k ⟨[], []⟩ = none := by
  induction fuel generalizing k with
  | zero => rfl
  | succ n ih =>
    simp only [dnsLookupGo]
    rw [if_pos (by simp : (([] : List Nat)).length < m + 1)]
    exact ih (k + 1)

/-- The membership condition on a received address, as the code tests it:
routable socket, services mask 9 set, and strictly fresher than
`now − 3·60·30` seconds. -/
def addrCond (now : Nat) (a : Nat × MAddress) : Bool :=
  a.2.socketOk && decide (a.2.services &&& 9 = 9 ∧ a.1 > now - 3 * 60 * 30)

/-- The address loop stores exactly the entries passing `addrCond`, in order,
and latches the result to `Ack` iff at least one entry passed. -/
theorem addrGo_eq (now : Nat) : ∀ (v : List (Nat × MAddress))
    (acc : List (MAddress × Nat × Nat)) (res : ProcessResult),
    addrGo now acc res v
      = (acc ++ (v.filter (addrCond now)).map (fun a => (a.2, a.1, 0)),
        if (v.filter (addrCond now)).isEmpty then res else .ack) := by
  intro v
  induction v with
  | nil => intro acc res; simp [addrGo]
  | cons a rest ih =>
    intro acc res
    cases h1 : a.2.socketOk with
    | false =>
      have hc : addrCond now a = false := by simp [addrCond, h1]
      simp only [addrGo, h1, Bool.false_eq_true, if_false, List.filter_cons, hc]
      exact ih acc res
    | true =>
      by_cases h2 : a.2.services &&& 9 = 9 ∧ a.1 > now - 3 * 60 * 30
      · have hc : addrCond now a = true := by simp [addrCond, h1, h2]
        simp only [addrGo, h1, if_pos h2, if_true, List.filter_cons, hc]
        rw [ih]
        simp [List.append_assoc]
      · have hc : addrCond now a = false := by simp [addrCond, h1, h2]
        simp only [addrGo, h1, if_neg h2, if_true, List.filter_cons, hc,
          Bool.false_eq_true, if_false]
        exact ih acc res

/-- C7 (amended): for `now` past the freshness window, `Dispatcher::addr`
stores `store_peer(addr, ts, 0)` exactly for the entries with a routable
socket address, services mask `0x9` set and `ts` strictly greater than
`now − 5400`, in order, and answers `Ack` iff at least one entry was stored,
else `Ignored`. -/
theorem c7_addr_characterization (now : Nat) (v : List (Nat × MAddress))
    (_hnow : 5400 ≤ now) :
    addrHandler now v
      = ((v.filter (addrCond now)).map (fun a => (a.2, a.1, 0)),
        if (v.filter (addrCond now)).isEmpty then ProcessResult.ignored else .ack) := by
  unfold addrHandler
  rw [addrGo_eq]
  simp

/-- Witness for C7's amended statement at a concrete input. -/
theorem c7_addr_characterization_witness :
    5400 ≤ 10000 ∧
    addrHandler 10000 [(9000, ⟨9, true, 1⟩), (100, ⟨9, true, 2⟩)]
      = ((([(9000, ⟨9, true, 1⟩), (100, ⟨9, true, 2⟩)] :
            List (Nat × MAddress)).filter (addrCond 10000)).map (fun a => (a.2, a.1, 0)),
        if (([(9000, ⟨9, true, 1⟩), (100, ⟨9, true, 2⟩)] :
            List (Nat × MAddress)).filter (addrCond 10000)).isEmpty
        then ProcessResult.ignored else .ack) :=
  ⟨by decide, c7_addr_characterization 10000 _ (by decide)⟩

/-- Counterexample to C7's `last_seen ≥ now − 5400` reading: an entry exactly
at the window boundary (ts = now − 5400, routable, services 0x9) is not
stored — the code tests the strict `ts > now − 5400` — and the dispatch
answers `Ignored`. -/
theorem c7_counterexample :
    addrHandler 10000 [(4600, ⟨9, true, 0⟩)] = ([], .ignored) := by
  decide

/-- The inv loop bans as soon as a non-block entry is seen. -/
theorem invLoop_non_block {s : HeaderStore} : ∀ (v : List Inventory) (ask : Bool),
    (∃ i ∈ v, i.invType ≠ InvType.block) → invLoop s ask v = none := by
  intro v
  induction v with
  | nil => intro ask h; simp at h
  | cons i rest ih =>
    intro ask h
    by_cases hb : i.invType = InvType.block
    · simp only [invLoop, if_pos hb]
      apply ih
      rcases h with ⟨j, hj, hjt⟩
      rcases List.mem_cons.mp hj with rfl | hjr
      · exact absurd hb hjt
      · exact ⟨j, hjr, hjt⟩
    · simp only [invLoop, if_neg hb]

/-- On an all-block message the inv loop accumulates whether some hash is
unknown. -/
theorem invLoop_all_block {s : HeaderStore} : ∀ (v : List Inventory) (ask : Bool),
    (∀ i ∈ v, i.invType = InvType.block) →
    invLoop s ask v = some (ask || v.any (fun i => (s.getHeader i.hash).isNone)) := by
  intro v
  induction v with
  | nil => intro ask _; simp [invLoop]
  | cons i rest ih =>
    intro ask hall
    have hb := hall i (by simp)
    simp only [invLoop, if_pos hb]
    rw [ih _ (fun j hj => hall j (by simp [hj]))]
    simp [List.any_cons, Bool.or_assoc]

/-- When the tip entry exists the locator is non-empty and headed by the tip
hash. -/
theorem headerLocators_tip {s : HeaderStore} {tv : StoredHeader} (ht : s.tip = some tv) :
    ∃ rest, headerLocators s = s.tipHash :: rest := by
  obtain ⟨A, hanc⟩ : ∃ A, s.anc s.tipHash = s.tipHash :: A :=
    ⟨_, by
      unfold HeaderStore.anc
      simp only [ancestry]
      rw [show s.getHeader s.tipHash = some tv from ht]⟩
  unfold headerLocators
  rw [hanc]
  obtain ⟨B, hB⟩ : ∃ B, locatorGo (s.tipHash :: A) ((s.tipHash :: A).length + 1) 0 1
      = s.tipHash :: B := ⟨_, rfl⟩
  rw [hB]
  split
  next g hg =>
    split
    · exact ⟨B, rfl⟩
    · exact ⟨B ++ [g], rfl⟩
  next hg =>
    rw [List.getLast?_eq_none_iff] at hg
    cases hg

/-- C8: `Dispatcher::inv` — any non-block entry draws `Ban(10)` with no send;
an all-block message with an unknown hash makes the dispatcher send
`GetHeaders(locator, stop = locator[0])` (the locator headed by the tip hash)
and answer `Ack`; an all-block, all-known message is `Ignored` with no
send. -/
theorem c8_inv_cases :
    (∀ (s : HeaderStore) (v : List Inventory), (∃ i ∈ v, i.invType ≠ InvType.block) →
      invHandler s v = (.ban 10, [])) ∧
    (∀ (s : HeaderStore) (v : List Inventory) (tv : StoredHeader), s.tip = some tv →
      (∀ i ∈ v, i.invType = InvType.block) →
      (∃ i ∈ v, s.getHeader i.hash = none) →
      ∃ rest, headerLocators s = s.tipHash :: rest ∧
        invHandler s v = (.ack, [Msg.getHeaders (s.tipHash :: rest) s.tipHash])) ∧
    (∀ (s : HeaderStore) (v : List Inventory),
      (∀ i ∈ v, i.invType = InvType.block ∧ (s.getHeader i.hash).isSome) →
      invHandler s v = (.ignored, [])) := by
  refine ⟨?_, ?_, ?_⟩
  · intro s v hex
    unfold invHandler
    rw [invLoop_non_block v false hex]
  · intro s v tv ht hall hunk
    obtain ⟨rest, hloc⟩ := headerLocators_tip ht
    refine ⟨rest, hloc, ?_⟩
    unfold invHandler
    rw [invLoop_all_block v false hall]
    have hany : v.any (fun i => (s.getHeader i.hash).isNone) = true := by
      rw [List.any_eq_true]
      obtain ⟨i, hi, hin⟩ := hunk
      exact ⟨i, hi, by simp [hin]⟩
    rw [hany]
    simp [hloc]
  · intro s v hall
    unfold invHandler
    rw [invLoop_all_block v false (fun i hi => (hall i hi).1)]
    have hany : v.any (fun i => (s.getHeader i.hash).isNone) = false := by
      rw [List.any_eq_false]
      intro i hi
      obtain ⟨w, hw⟩ := Option.isSome_iff_exists.mp (hall i hi).2
      simp [hw]
    rw [hany]
    simp

/-- Witness for C8 at concrete inputs over `cexStore`. -/
theorem c8_inv_cases_witness :
    invHandler cexStore [⟨InvType.transaction, 7⟩] = (.ban 10, []) ∧
    (∃ rest, headerLocators cexStore = cexStore.tipHash :: rest ∧
      invHandler cexStore [⟨InvType.block, 9⟩]
        = (.ack, [Msg.getHeaders (cexStore.tipHash :: rest) cexStore.tipHash])) ∧
    invHandler cexStore [⟨InvType.block, 2⟩] = (.ignored, []) :=
  ⟨c8_inv_cases.1 cexStore [⟨InvType.transaction, 7⟩] (by decide),
   c8_inv_cases.2.1 cexStore [⟨InvType.block, 9⟩] ⟨hX, 1, 15⟩ (by decide) (by decide)
     (by decide),
   c8_inv_cases.2.2 cexStore [⟨InvType.block, 2⟩] (by decide)⟩

end Murmel
